import Mathlib

/-!
A shallow embedding of the seqdat core (`seqdat/project.py`): sample
identification from raw-file names, paired/unpaired consolidation of
`.fastq.gz` files, metadata persistence, and info-sheet regeneration.
Strings are modelled as `List Char` (Python `str`), file contents as
`List Nat` (raw bytes).  Each definition mirrors the corresponding Python
function; theorems below settle the specification claims against them.
-/

/-- Python strings (sequences of code points). -/
abbrev Str := List Char

/-- A raw read file: its final-component name and its byte content. -/
structure SeqFile where
  name : Str
  content : List Nat
deriving DecidableEq, Repr

/-- Python substring containment: `pat in hay`. -/
def containsSub (hay pat : Str) : Bool :=
  match hay with
  | [] => pat.isEmpty
  | _ :: t => pat.isPrefixOf hay || containsSub t pat

/-- Python `name.split("_")[0]`: the segment before the first underscore
(the whole string when no underscore occurs). -/
def splitHead (s : Str) : Str := s.takeWhile (fun c => c ≠ '_')

/-- Marker used by `cat_fastqgz` for forward reads: `"_R1_" in f.name`. -/
def carriesR1 (n : Str) : Bool := containsSub n (("_R1_").data)

/-- Marker used by `cat_fastqgz` for reverse reads: `"_R2_" in f.name`. -/
def carriesR2 (n : Str) : Bool := containsSub n (("_R2_").data)

/-- Python `str.split(sep)` for a one-character separator. -/
def splitOnChar (c : Char) (s : Str) : List Str :=
  match s with
  | [] => [[]]
  | x :: xs =>
    match splitOnChar c xs with
    | [] => [[]]
    | h :: t => if x = c then [] :: h :: t else (x :: h) :: t

/-- Python `pathlib.PurePath.suffixes` on a file name: empty when the name
ends with a dot, otherwise one entry per dot-separated extension after the
leading-dot-stripped stem. -/
def suffixesOf (n : Str) : List Str :=
  if n.getLast? = some '.' then []
  else
    let stripped := n.dropWhile (fun c => c = '.')
    ((splitOnChar '.' stripped).tail).map (fun p => '.' :: p)

/-- The two-part extension that `Project.identify_samples` filters on:
`f.suffixes == [".fastq", ".gz"]`. -/
def fastqGzSuffixes : List Str := [(".fastq").data, (".gz").data]

/-- A directory tree of raw data: leaves are files, nodes are directories. -/
inductive FsTree where
  | file (f : SeqFile)
  | dir (children : List FsTree)

mutual
/-- The recursive generator `walk`: files of a tree in traversal order. -/
def walk : FsTree → List SeqFile
  | FsTree.file f => [f]
  | FsTree.dir cs => walkList cs

/-- Files of a forest, child order preserved (the `iterdir` loop). -/
def walkList : List FsTree → List SeqFile
  | [] => []
  | t :: ts => walk t ++ walkList ts
end

/-- Python `sorted(set(l))` for strings: order-canonical duplicate-free
lexicographic arrangement. -/
def pySortedSet (l : List Str) : List Str :=
  List.insertionSort (fun a b => a ≤ b) l.dedup

/-- Core of `Project.identify_samples` on the walked file names:
`sorted(set(f.name.split("_")[0] for f in walk(path) if f.suffixes == [".fastq", ".gz"]))`. -/
def identifySamplesList (names : List Str) : List Str :=
  pySortedSet ((names.filter (fun n => suffixesOf n = fastqGzSuffixes)).map splitHead)

/-- The sample list `Project.identify_samples` computes from a data tree. -/
def identify_samples (t : FsTree) : List Str :=
  identifySamplesList ((walk t).map SeqFile.name)

/-- Outcome of running `Project.identify_samples` against a possibly missing
data directory: the resulting `samples` attribute and whether the
recoverable not-found message was emitted. -/
structure IdentifyOutcome where
  samples : Option (List Str)
  notFoundSignaled : Bool
deriving DecidableEq, Repr

/-- Running `Project.identify_samples`: when the data directory is missing the
`FileNotFoundError` is caught, a message is printed, and `self.samples` is
left as it was; otherwise `self.samples` is assigned the computed list. -/
def identifySamplesRun (dataDir : Option FsTree) (prev : Option (List Str)) :
    IdentifyOutcome :=
  match dataDir with
  | none => ⟨prev, true⟩
  | some t => ⟨some (identify_samples t), false⟩

/-- An output file written under the destination directory. -/
structure OutFile where
  name : Str
  content : List Nat
deriving DecidableEq, Repr

/-- The sequential `shutil.copyfileobj` loop: bytes of each input appended to
the open output in order. -/
def concatContents (files : List SeqFile) : List Nat :=
  files.foldl (fun acc f => acc ++ f.content) []

/-- Failure of `cat_fastqgz`: R2-direction files present in unpaired mode
(the `sys.exit(1)` path). -/
inductive CatErr where
  | ambiguousMode
deriving DecidableEq, Repr

/-- The function `cat_fastqgz`: writes for one sample, or the ambiguous-mode
abort.  In paired-end mode the R1 group goes to `<sample>.R1.raw.fastq.gz`
and the R2 group to `<pre><sample>.R2<suf>.fastq.gz`; in unpaired mode any
R2-direction file aborts before the output is opened, otherwise all files
are concatenated into `<sample>.raw.fastq.gz`. -/
def cat_fastqgz (sample : Str) (files : List SeqFile) (pre suf : Str)
    (pairedEnd : Bool) : Except CatErr (List OutFile) :=
  let r1Files := files.filter (fun f => carriesR1 f.name)
  let r2Files := files.filter (fun f => carriesR2 f.name)
  if pairedEnd then
    Except.ok
      [⟨sample ++ (".R1.raw.fastq.gz").data, concatContents r1Files⟩,
       ⟨pre ++ sample ++ (".R2").data ++ suf ++ (".fastq.gz").data,
        concatContents r2Files⟩]
  else
    if r2Files.isEmpty then
      Except.ok [⟨sample ++ (".raw.fastq.gz").data, concatContents files⟩]
    else
      Except.error CatErr.ambiguousMode

/-- Failure of `Project.move_data`: no samples, pre-existing destination, or
the per-sample ambiguous-mode abort (naming the offending sample). -/
inductive MoveErr where
  | noData
  | destExists
  | ambiguousMode (sample : Str)
deriving DecidableEq, Repr

/-- One step of `sample_files.setdefault(key, []).append(file)`: append the
file to its key's group, creating the group at the end on first sight. -/
def addToGroups (groups : List (Str × List SeqFile)) (key : Str) (f : SeqFile) :
    List (Str × List SeqFile) :=
  match groups with
  | [] => [(key, [f])]
  | (k0, fs) :: rest =>
    if k0 = key then (k0, fs ++ [f]) :: rest
    else (k0, fs) :: addToGroups rest key f

/-- The grouping loop of `Project.move_data` over the globbed files. -/
def groupInto (acc : List (Str × List SeqFile)) : List SeqFile → List (Str × List SeqFile)
  | [] => acc
  | f :: fs => groupInto (addToGroups acc (splitHead f.name) f) fs

/-- The dictionary `sample_files` of `Project.move_data`: files keyed by
`file.name.split("_")[0]`, keys in first-occurrence order. -/
def groupBySample (files : List SeqFile) : List (Str × List SeqFile) :=
  groupInto [] files

/-- The glob `path_to_data.glob("**/*.fastq.gz")`: every file under the data
tree whose name ends with `.fastq.gz`. -/
def globFastqgz (t : FsTree) : List SeqFile :=
  (walk t).filter (fun f => List.isSuffixOf ((".fastq.gz").data) f.name)

/-- Whether a sample group holds any file carrying the `_R2_` marker (the
condition `if r2_files:` inside `cat_fastqgz`). -/
def hasR2Group (g : Str × List SeqFile) : Bool :=
  !(g.2.filter (fun f => carriesR2 f.name)).isEmpty

/-- The single output `cat_fastqgz` writes for a sample in unpaired mode. -/
def unpairedOut (g : Str × List SeqFile) : OutFile :=
  ⟨g.1 ++ (".raw.fastq.gz").data, concatContents g.2⟩

/-- The per-sample loop of `Project.move_data`: run `cat_fastqgz` on each
group in order; an abort (`sys.exit(1)`) ends the whole process, keeping the
outputs already written. -/
def catLoop (groups : List (Str × List SeqFile)) (pre suf : Str)
    (pairedEnd : Bool) : List OutFile × Option MoveErr :=
  match groups with
  | [] => ([], none)
  | (s, fs) :: rest =>
    match cat_fastqgz s fs pre suf pairedEnd with
    | Except.error _ => ([], some (MoveErr.ambiguousMode s))
    | Except.ok outs =>
      let r := catLoop rest pre suf pairedEnd
      (outs ++ r.1, r.2)

/-- The sample list `Project.move_data` acts on: re-identified from the data
directory when the current `samples` attribute is falsy. -/
def effectiveSamples (samples : Option (List Str)) (dataDir : FsTree) : List Str :=
  let s0 := match samples with | none => [] | some l => l
  if s0.isEmpty then identify_samples dataDir else s0

/-- The method `Project.move_data`: exit on an empty sample list, exit when
the destination directory already exists, otherwise group the globbed files
by sample and consolidate group by group.  Returns the output files written
(in order) together with the failure, if any, that ended the operation. -/
def move_data (samples : Option (List Str)) (dataDir : FsTree) (outExists : Bool)
    (pre suf : Str) (pairedEnd : Bool) : List OutFile × Option MoveErr :=
  let s1 := effectiveSamples samples dataDir
  if s1.isEmpty then ([], some MoveErr.noData)
  else if outExists then ([], some MoveErr.destExists)
  else catLoop (groupBySample (globFastqgz dataDir)) pre suf pairedEnd

/-- The marker text of the info sheet: `"## Additional Info"`. -/
def markerLine : Str := ("## Additional Info").data

/-- Helper for `pyLines`, carrying the current line reversed. -/
def pyLinesAux (cur : Str) : Str → List Str
  | [] => if cur.isEmpty then [] else [cur.reverse]
  | c :: cs =>
    if c = '\n' then (cur.reverse ++ ['\n']) :: pyLinesAux [] cs
    else pyLinesAux (c :: cur) cs

/-- Python text-file line iteration (`next(f)` / `for line in f`): lines keep
their trailing newline; a final unterminated line is kept without one. -/
def pyLines (s : Str) : List Str := pyLinesAux [] s

/-- The function `get_existing_info_sheet`: consume lines while the marker is
not contained in the line (a substring test), discard the matching line,
and return the canonical marker line followed by every remaining line.
When no line contains the marker the `next(f)` call raises `StopIteration`
(modelled as `none`). -/
def get_existing_info_sheet (content : Str) : Option Str :=
  match (pyLines content).dropWhile (fun l => !(containsSub l markerLine)) with
  | [] => none
  | _ :: rest => some ((markerLine ++ ['\n']) ++ rest.flatten)

/-- The write phase of `Project.generate_info_sheet` given the composed
header: with an existing document, recover its tail and replace the file by
header plus tail only on an affirmative confirmation, otherwise leave it
unchanged; a marker-less document crashes before any write; with no
existing document the method writes nothing.  Returns the resulting file
content (`none` when there is no file or the crash occurred). -/
def generate_info_sheet (header : Str) (existing : Option Str)
    (consent : Bool) : Option Str :=
  match existing with
  | none => none
  | some old =>
    match get_existing_info_sheet old with
    | none => none
    | some tail => if consent then some (header ++ tail) else some old

/-- The persisted metadata fields of a `Project` (its `__dict__`). -/
structure MetaRecord where
  name : Str
  owner : Option Str
  run_type : Option Str
  samples : Option (List Str)
deriving DecidableEq, Repr

/-- Modelled from the spec: the serialization helper (`seqdat._yaml`) is not
among the sources; per the spec the persisted form is a structured
key-value document.  A value is null, a string, or a list of strings. -/
inductive YamlVal where
  | nullV
  | strV (s : Str)
  | listV (l : List Str)
deriving DecidableEq, Repr

/-- Modelled from the spec: serialization of a metadata record — one key per
declared field, no extra or missing keys. -/
def yamlDump (m : MetaRecord) : List (Str × YamlVal) :=
  [(("name").data, YamlVal.strV m.name),
   (("owner").data, match m.owner with
     | none => YamlVal.nullV
     | some s => YamlVal.strV s),
   (("run_type").data, match m.run_type with
     | none => YamlVal.nullV
     | some s => YamlVal.strV s),
   (("samples").data, match m.samples with
     | none => YamlVal.nullV
     | some l => YamlVal.listV l)]

/-- Decoder for an optional-string field of the stored document. -/
def decodeOptStr : YamlVal → Option (Option Str)
  | YamlVal.nullV => some none
  | YamlVal.strV s => some (some s)
  | YamlVal.listV _ => none

/-- Decoder for the optional string-list field of the stored document. -/
def decodeOptList : YamlVal → Option (Option (List Str))
  | YamlVal.nullV => some none
  | YamlVal.listV l => some (some l)
  | YamlVal.strV _ => none

/-- Modelled from the spec: parsing the stored document back into a record,
as consumed by `Project(**metadata)` — the keys must be exactly the
declared fields with well-typed values, otherwise construction fails. -/
def yamlLoad (doc : List (Str × YamlVal)) : Option MetaRecord :=
  match doc with
  | [(k1, YamlVal.strV n), (k2, v2), (k3, v3), (k4, v4)] =>
    if k1 = ("name").data ∧ k2 = ("owner").data ∧ k3 = ("run_type").data ∧
        k4 = ("samples").data then
      match decodeOptStr v2, decodeOptStr v3, decodeOptList v4 with
      | some o, some rt, some ss => some ⟨n, o, rt, ss⟩
      | _, _, _ => none
    else none
  | _ => none

/-- The method `Project.save_metadata` acting on the stored document: no
write when the stored record equals the new one; on a difference the file
is wholly replaced only on an affirmative confirmation; with no existing
file the record is written directly.  Returns the resulting file content
and whether a write happened. -/
def save_metadata (existing : Option (List (Str × YamlVal))) (m : MetaRecord)
    (consent : Bool) : Option (List (Str × YamlVal)) × Bool :=
  match existing with
  | none => (some (yamlDump m), true)
  | some old =>
    if yamlLoad old = some m then (some old, false)
    else if consent then (some (yamlDump m), true)
    else (some old, false)

/-- The classmethod `Project.from_metadata`: build the record from the stored
document, substituting a default record when the file is missing, and
failing (`sys.exit(1)`) when the project directory does not exist. -/
def from_metadata (name : Str) (dirExists : Bool)
    (stored : Option (List (Str × YamlVal))) : Option MetaRecord :=
  if dirExists then
    match stored with
    | none => some ⟨name, none, none, none⟩
    | some doc => yamlLoad doc
  else none

/-- Stated from the words of the specification (for comparison with
`identifySamplesList`): sample identification over exactly those files whose
name ends in `.fastq.gz`. -/
def identifySamplesSpecList (names : List Str) : List Str :=
  pySortedSet
    ((names.filter (fun n => List.isSuffixOf ((".fastq.gz").data) n)).map splitHead)

lemma foldl_append_content (fs : List SeqFile) (acc : List Nat) :
    fs.foldl (fun a f => a ++ f.content) acc = acc ++ (fs.map SeqFile.content).flatten := by
  induction fs generalizing acc with
  | nil => simp
  | cons f fs ih => simp [ih, List.append_assoc]

lemma concatContents_eq_flatten (fs : List SeqFile) :
    concatContents fs = (fs.map SeqFile.content).flatten := by
  simp [concatContents, foldl_append_content]

lemma count_two_r1_name (sample : Str) :
    List.count '2' (sample ++ (".R1.raw.fastq.gz").data) = List.count '2' sample := by
  simp [List.count_append]

lemma count_two_r2_name (sample pre suf : Str) :
    List.count '2' (pre ++ sample ++ (".R2").data ++ suf ++ (".fastq.gz").data) =
      List.count '2' pre + List.count '2' sample + List.count '2' suf + 1 := by
  simp [List.count_append]
  have h1 : List.count '2' ((".R2").data) = 1 := by decide
  have h2 : List.count '2' ((".fastq.gz").data) = 0 := by decide
  omega

/-- C1.  In paired-end mode `cat_fastqgz` writes exactly two output files:
`<sample>.R1.raw.fastq.gz` holding the ordered byte concatenation of the
inputs carrying the `_R1_` marker and `<pre><sample>.R2<suf>.fastq.gz`
holding the ordered byte concatenation of the inputs carrying the `_R2_`
marker; the two names never coincide, and an empty group yields a
zero-length output. -/
theorem C1_paired_end_concatenation (sample : Str) (files : List SeqFile)
    (pre suf : Str) :
    cat_fastqgz sample files pre suf true =
      Except.ok
        [⟨sample ++ (".R1.raw.fastq.gz").data,
          ((files.filter (fun f => carriesR1 f.name)).map SeqFile.content).flatten⟩,
         ⟨pre ++ sample ++ (".R2").data ++ suf ++ (".fastq.gz").data,
          ((files.filter (fun f => carriesR2 f.name)).map SeqFile.content).flatten⟩]
    ∧ sample ++ (".R1.raw.fastq.gz").data ≠
        pre ++ sample ++ (".R2").data ++ suf ++ (".fastq.gz").data
    ∧ (files.filter (fun f => carriesR1 f.name) = [] →
        ((files.filter (fun f => carriesR1 f.name)).map SeqFile.content).flatten =
          ([] : List Nat))
    ∧ (files.filter (fun f => carriesR2 f.name) = [] →
        ((files.filter (fun f => carriesR2 f.name)).map SeqFile.content).flatten =
          ([] : List Nat)) := by
  refine ⟨?_, ?_, ?_, ?_⟩
  · simp [cat_fastqgz, concatContents_eq_flatten]
  · intro h
    have hc := congrArg (List.count '2') h
    rw [count_two_r1_name, count_two_r2_name] at hc
    omega
  · intro h
    simp [h]
  · intro h
    simp [h]

/-- Witness for C1 at a concrete sample with one `_R1_` file, one `_R2_`
file, and one undirected file. -/
theorem C1_paired_end_concatenation_witness :
    cat_fastqgz (("S1").data)
        [⟨("S1_L001_R1_001.fastq.gz").data, [1, 2]⟩,
         ⟨("S1_L001_R2_001.fastq.gz").data, [3]⟩,
         ⟨("S1_unknown.fastq.gz").data, [9]⟩]
        [] ((".raw").data) true =
      Except.ok
        [⟨("S1.R1.raw.fastq.gz").data, [1, 2]⟩,
         ⟨("S1.R2.raw.fastq.gz").data, [3]⟩] := by
  have h := C1_paired_end_concatenation (("S1").data)
    [⟨("S1_L001_R1_001.fastq.gz").data, [1, 2]⟩,
     ⟨("S1_L001_R2_001.fastq.gz").data, [3]⟩,
     ⟨("S1_unknown.fastq.gz").data, [9]⟩]
    [] ((".raw").data)
  rw [h.1]
  exact congrArg Except.ok (by decide)

lemma cat_fastqgz_unpaired_clean (s : Str) (fs : List SeqFile) (pre suf : Str)
    (h : hasR2Group (s, fs) = false) :
    cat_fastqgz s fs pre suf false = Except.ok [unpairedOut (s, fs)] := by
  have he : (fs.filter (fun f => carriesR2 f.name)).isEmpty = true := by
    simpa [hasR2Group] using h
  simp [cat_fastqgz, he, unpairedOut]

lemma cat_fastqgz_unpaired_bad (s : Str) (fs : List SeqFile) (pre suf : Str)
    (h : hasR2Group (s, fs) = true) :
    cat_fastqgz s fs pre suf false = Except.error CatErr.ambiguousMode := by
  have he : (fs.filter (fun f => carriesR2 f.name)).isEmpty = false := by
    simpa [hasR2Group] using h
  simp [cat_fastqgz, he]

lemma catLoop_unpaired_spec (groups : List (Str × List SeqFile)) (pre suf : Str) :
    catLoop groups pre suf false =
      ((groups.takeWhile (fun g => !hasR2Group g)).map unpairedOut,
       match groups.dropWhile (fun g => !hasR2Group g) with
       | [] => none
       | g :: _ => some (MoveErr.ambiguousMode g.1)) := by
  induction groups with
  | nil => simp [catLoop]
  | cons g rest ih =>
    obtain ⟨s, fs⟩ := g
    cases h : hasR2Group (s, fs) with
    | true =>
      simp [catLoop, cat_fastqgz_unpaired_bad s fs pre suf h,
        List.takeWhile_cons, List.dropWhile_cons, h]
    | false =>
      simp [catLoop, cat_fastqgz_unpaired_clean s fs pre suf h,
        List.takeWhile_cons, List.dropWhile_cons, h, ih]

lemma dropWhile_head_false {α : Type} {p : α → Bool} {l : List α} {b : α}
    {r : List α} (h : l.dropWhile p = b :: r) : p b = false := by
  induction l with
  | nil => simp [List.dropWhile] at h
  | cons x xs ih =>
    rw [List.dropWhile_cons] at h
    cases hp : p x with
    | true =>
      rw [hp] at h
      simp at h
      exact ih h
    | false =>
      rw [hp] at h
      simp at h
      rw [← h.1]
      exact hp

lemma takeWhile_middle {α : Type} {p : α → Bool} (l₁ : List α) (x : α)
    (l₂ : List α) (h₁ : ∀ y ∈ l₁, p y = true) (hx : p x = false) :
    (l₁ ++ x :: l₂).takeWhile p = l₁ ∧ (l₁ ++ x :: l₂).dropWhile p = x :: l₂ := by
  induction l₁ with
  | nil => simp [List.takeWhile_cons, List.dropWhile_cons, hx]
  | cons a l ih =>
    have ha : p a = true := h₁ a (by simp)
    have hrest := ih (fun y hy => h₁ y (by simp [hy]))
    simp [List.takeWhile_cons, List.dropWhile_cons, ha, hrest.1, hrest.2]

/-- C8.  When the destination directory already exists, `move_data` (for a
project whose effective sample list is non-empty) fails with the
destination-exists condition having written no output file at all. -/
theorem C8_destination_exists (samples : Option (List Str)) (dataDir : FsTree)
    (pre suf : Str) (pairedEnd : Bool)
    (hs : effectiveSamples samples dataDir ≠ []) :
    move_data samples dataDir true pre suf pairedEnd =
      ([], some MoveErr.destExists) := by
  simp [move_data, List.isEmpty_eq_false.mpr hs]

/-- Witness for C8 at a concrete project with one sample and an existing
destination directory. -/
theorem C8_destination_exists_witness :
    effectiveSamples (some [("A").data]) (FsTree.dir []) ≠ [] ∧
    move_data (some [("A").data]) (FsTree.dir []) true [] [] false =
      ([], some MoveErr.destExists) :=
  ⟨by decide, C8_destination_exists _ _ _ _ _ (by decide)⟩

/-- C3 (counterexample).  A two-sample unpaired run where the second sample
has an `_R2_` file: the operation does abort with the ambiguous-mode
failure, but the first sample's output file has already been written, so the
whole operation does not write zero output files. -/
theorem C3_unpaired_zero_writes_counterexample :
    carriesR2 (("B_R2_x.fastq.gz").data) = true ∧
    move_data (some [("A").data, ("B").data])
        (FsTree.dir [FsTree.file ⟨("A_x.fastq.gz").data, [1]⟩,
                     FsTree.file ⟨("B_R2_x.fastq.gz").data, [2]⟩])
        false [] [] false =
      ([⟨("A.raw.fastq.gz").data, [1]⟩],
       some (MoveErr.ambiguousMode (("B").data))) ∧
    (move_data (some [("A").data, ("B").data])
        (FsTree.dir [FsTree.file ⟨("A_x.fastq.gz").data, [1]⟩,
                     FsTree.file ⟨("B_R2_x.fastq.gz").data, [2]⟩])
        false [] [] false).1 ≠ [] := by
  decide

/-- C3 (amended).  In unpaired mode, when any grouped input file carries the
`_R2_` marker the operation aborts with the ambiguous-mode failure at the
first such sample: no output is written for that sample or any later one,
and the outputs written are exactly the single consolidated file of each
preceding R2-free sample. -/
theorem C3_unpaired_abort_amended (samples : Option (List Str)) (d : FsTree)
    (pre suf : Str) (hs : effectiveSamples samples d ≠ [])
    (hr : ∃ g ∈ groupBySample (globFastqgz d), hasR2Group g = true) :
    ∃ bad rest,
      (groupBySample (globFastqgz d)).dropWhile (fun g => !hasR2Group g) =
        bad :: rest ∧
      hasR2Group bad = true ∧
      (∀ g ∈ (groupBySample (globFastqgz d)).takeWhile (fun g => !hasR2Group g),
        hasR2Group g = false) ∧
      move_data samples d false pre suf false =
        (((groupBySample (globFastqgz d)).takeWhile
            (fun g => !hasR2Group g)).map unpairedOut,
         some (MoveErr.ambiguousMode bad.1)) := by
  have hne : (groupBySample (globFastqgz d)).dropWhile (fun g => !hasR2Group g) ≠ [] := by
    intro hnil
    rw [List.dropWhile_eq_nil_iff] at hnil
    obtain ⟨g, hg, hgr⟩ := hr
    have := hnil g hg
    simp [hgr] at this
  obtain ⟨bad, rest, hbr⟩ :
      ∃ b r, (groupBySample (globFastqgz d)).dropWhile (fun g => !hasR2Group g) =
        b :: r := by
    cases hdw : (groupBySample (globFastqgz d)).dropWhile (fun g => !hasR2Group g) with
    | nil => exact absurd hdw hne
    | cons b r => exact ⟨b, r, rfl⟩
  refine ⟨bad, rest, hbr, ?_, ?_, ?_⟩
  · have := dropWhile_head_false hbr
    simpa using this
  · intro g hg
    have := List.mem_takeWhile_imp hg
    simpa using this
  · simp [move_data, List.isEmpty_eq_false.mpr hs, catLoop_unpaired_spec, hbr]

/-- Witness for the amended C3 at a concrete two-sample run whose second
sample carries an `_R2_` file. -/
theorem C3_unpaired_abort_amended_witness :
    (effectiveSamples (some [("A").data, ("B").data])
        (FsTree.dir [FsTree.file ⟨("A_x.fastq.gz").data, [3]⟩,
                     FsTree.file ⟨("B_R2_y.fastq.gz").data, [4]⟩]) ≠ [] ∧
     (∃ g ∈ groupBySample (globFastqgz
        (FsTree.dir [FsTree.file ⟨("A_x.fastq.gz").data, [3]⟩,
                     FsTree.file ⟨("B_R2_y.fastq.gz").data, [4]⟩])),
        hasR2Group g = true)) ∧
    (∃ bad rest,
      (groupBySample (globFastqgz
          (FsTree.dir [FsTree.file ⟨("A_x.fastq.gz").data, [3]⟩,
                       FsTree.file ⟨("B_R2_y.fastq.gz").data, [4]⟩]))).dropWhile
          (fun g => !hasR2Group g) = bad :: rest ∧
      hasR2Group bad = true ∧
      (∀ g ∈ (groupBySample (globFastqgz
          (FsTree.dir [FsTree.file ⟨("A_x.fastq.gz").data, [3]⟩,
                       FsTree.file ⟨("B_R2_y.fastq.gz").data, [4]⟩]))).takeWhile
          (fun g => !hasR2Group g), hasR2Group g = false) ∧
      move_data (some [("A").data, ("B").data])
          (FsTree.dir [FsTree.file ⟨("A_x.fastq.gz").data, [3]⟩,
                       FsTree.file ⟨("B_R2_y.fastq.gz").data, [4]⟩])
          false [] [] false =
        (((groupBySample (globFastqgz
            (FsTree.dir [FsTree.file ⟨("A_x.fastq.gz").data, [3]⟩,
                         FsTree.file ⟨("B_R2_y.fastq.gz").data, [4]⟩]))).takeWhile
            (fun g => !hasR2Group g)).map unpairedOut,
         some (MoveErr.ambiguousMode bad.1))) :=
  ⟨⟨by decide, by decide⟩,
   C3_unpaired_abort_amended (some [("A").data, ("B").data])
     (FsTree.dir [FsTree.file ⟨("A_x.fastq.gz").data, [3]⟩,
                  FsTree.file ⟨("B_R2_y.fastq.gz").data, [4]⟩])
     [] [] (by decide) (by decide)⟩

/-- C4 (counterexample).  A run whose first grouped sample fails the
ambiguous-mode check while the second would consolidate fine: the operation
stops at the failing sample with no writes at all, so it does not continue
to the next sample, and no failure aggregation takes place. -/
theorem C4_continue_after_failure_counterexample :
    move_data (some [("A").data, ("B").data])
        (FsTree.dir [FsTree.file ⟨("B_R2_x.fastq.gz").data, [5]⟩,
                     FsTree.file ⟨("A_x.fastq.gz").data, [6]⟩])
        false [] [] false =
      ([], some (MoveErr.ambiguousMode (("B").data))) ∧
    cat_fastqgz (("A").data) [⟨("A_x.fastq.gz").data, [6]⟩] [] [] false =
      Except.ok [⟨("A.raw.fastq.gz").data, [6]⟩] := by
  refine ⟨by decide, ?_⟩
  exact congrArg Except.ok (by decide)

/-- C4 (amended).  When consolidation of one sample fails, `move_data` stops
at that sample instead of continuing: the outputs already fully written for
the R2-free samples processed before it are left intact in the result, the
failure is reported for the offending sample alone, and no later sample is
processed. -/
theorem C4_failure_stops_operation (samples : Option (List Str)) (d : FsTree)
    (pre suf : Str) (gs₁ : List (Str × List SeqFile)) (g : Str × List SeqFile)
    (gs₂ : List (Str × List SeqFile))
    (hs : effectiveSamples samples d ≠ [])
    (hdecomp : groupBySample (globFastqgz d) = gs₁ ++ g :: gs₂)
    (hclean : ∀ g1 ∈ gs₁, hasR2Group g1 = false)
    (hbad : hasR2Group g = true) :
    move_data samples d false pre suf false =
      (gs₁.map unpairedOut, some (MoveErr.ambiguousMode g.1)) := by
  have h1 : ∀ y ∈ gs₁, (fun g => !hasR2Group g) y = true := by
    intro y hy
    simp [hclean y hy]
  have hx : (fun g => !hasR2Group g) g = false := by simp [hbad]
  have hm := takeWhile_middle gs₁ g gs₂ h1 hx
  simp [move_data, List.isEmpty_eq_false.mpr hs, catLoop_unpaired_spec, hdecomp,
    hm.1, hm.2]

/-- Witness for the amended C4: the clean first sample's output is kept, the
operation ends at the second, offending sample, and the third is never
reached. -/
theorem C4_failure_stops_operation_witness :
    (effectiveSamples (some [("A").data, ("B").data, ("C").data])
        (FsTree.dir [FsTree.file ⟨("A_x.fastq.gz").data, [7]⟩,
                     FsTree.file ⟨("B_R2_z.fastq.gz").data, [8]⟩,
                     FsTree.file ⟨("C_w.fastq.gz").data, [9]⟩]) ≠ [] ∧
     groupBySample (globFastqgz
        (FsTree.dir [FsTree.file ⟨("A_x.fastq.gz").data, [7]⟩,
                     FsTree.file ⟨("B_R2_z.fastq.gz").data, [8]⟩,
                     FsTree.file ⟨("C_w.fastq.gz").data, [9]⟩])) =
       [(("A").data, [⟨("A_x.fastq.gz").data, [7]⟩])] ++
         (("B").data, [⟨("B_R2_z.fastq.gz").data, [8]⟩]) ::
           [(("C").data, [⟨("C_w.fastq.gz").data, [9]⟩])]) ∧
    move_data (some [("A").data, ("B").data, ("C").data])
        (FsTree.dir [FsTree.file ⟨("A_x.fastq.gz").data, [7]⟩,
                     FsTree.file ⟨("B_R2_z.fastq.gz").data, [8]⟩,
                     FsTree.file ⟨("C_w.fastq.gz").data, [9]⟩])
        false [] [] false =
      ([(("A").data, [⟨("A_x.fastq.gz").data, [7]⟩])].map unpairedOut,
       some (MoveErr.ambiguousMode (("B").data))) :=
  ⟨⟨by decide, by decide⟩,
   C4_failure_stops_operation (some [("A").data, ("B").data, ("C").data])
     (FsTree.dir [FsTree.file ⟨("A_x.fastq.gz").data, [7]⟩,
                  FsTree.file ⟨("B_R2_z.fastq.gz").data, [8]⟩,
                  FsTree.file ⟨("C_w.fastq.gz").data, [9]⟩])
     [] []
     [(("A").data, [⟨("A_x.fastq.gz").data, [7]⟩])]
     (("B").data, [⟨("B_R2_z.fastq.gz").data, [8]⟩])
     [(("C").data, [⟨("C_w.fastq.gz").data, [9]⟩])]
     (by decide) (by decide) (by decide) (by decide)⟩

lemma pySortedSet_perm {l₁ l₂ : List Str} (h : l₁.Perm l₂) :
    pySortedSet l₁ = pySortedSet l₂ := by
  apply List.eq_of_perm_of_sorted (r := fun a b : Str => a ≤ b)
  · exact ((List.perm_insertionSort _ _).trans h.dedup).trans
      (List.perm_insertionSort _ _).symm
  · exact List.sorted_insertionSort _ _
  · exact List.sorted_insertionSort _ _

lemma mem_pySortedSet {l : List Str} {x : Str} : x ∈ pySortedSet l ↔ x ∈ l := by
  rw [pySortedSet, List.mem_insertionSort, List.mem_dedup]

lemma mem_identify_samples {t : FsTree} {x : Str} :
    x ∈ identify_samples t ↔
      ∃ f ∈ walk t, suffixesOf f.name = fastqGzSuffixes ∧ x = splitHead f.name := by
  rw [identify_samples, identifySamplesList, mem_pySortedSet]
  simp only [List.mem_map, List.mem_filter, decide_eq_true_eq]
  constructor
  · rintro ⟨n, ⟨hn, hsuf⟩, hx⟩
    obtain ⟨f, hf, rfl⟩ := hn
    exact ⟨f, hf, hsuf, hx.symm⟩
  · rintro ⟨f, hf, hsuf, rfl⟩
    exact ⟨f.name, ⟨⟨f, hf, rfl⟩, hsuf⟩, rfl⟩

/-- C2 (counterexample).  The file name `a.b.fastq.gz` ends in `.fastq.gz`,
so the claim includes it, but `f.suffixes == [".fastq", ".gz"]` fails on it
(its suffix list has three entries), so `identify_samples` excludes it: the
code returns the empty list where the claimed filter yields the file's
underscore-free full name. -/
theorem C2_extension_filter_counterexample :
    List.isSuffixOf ((".fastq.gz").data) (("a.b.fastq.gz").data) = true ∧
    identify_samples (FsTree.dir [FsTree.file ⟨("a.b.fastq.gz").data, [1]⟩]) = [] ∧
    identifySamplesSpecList [("a.b.fastq.gz").data] = [("a.b.fastq.gz").data] := by
  decide

/-- C2 (amended).  Sample identification returns the sorted, deduplicated
identifiers (segment before the first underscore) of exactly those walked
files whose suffix list is `[.fastq, .gz]` — that is, whose name after
stripping leading dots is a dot-free stem followed by `.fastq.gz` — and the
result is independent of directory traversal order. -/
theorem C2_sample_identification_amended (t₁ t₂ : FsTree) (x : Str)
    (hp : (walk t₁).Perm (walk t₂)) :
    identify_samples t₁ = identify_samples t₂ ∧
    (x ∈ identify_samples t₁ ↔
      ∃ f ∈ walk t₁, suffixesOf f.name = fastqGzSuffixes ∧ x = splitHead f.name) ∧
    List.Sorted (fun a b : Str => a ≤ b) (identify_samples t₁) ∧
    (identify_samples t₁).Nodup := by
  refine ⟨?_, mem_identify_samples, ?_, ?_⟩
  · unfold identify_samples identifySamplesList
    exact pySortedSet_perm (((hp.map SeqFile.name).filter _).map splitHead)
  · exact List.sorted_insertionSort _ _
  · exact ((List.perm_insertionSort _ _).nodup_iff).mpr (List.nodup_dedup _)

/-- Witness for the amended C2: two trees holding the same three files in
different arrangements yield the same identification result. -/
theorem C2_sample_identification_amended_witness :
    (walk (FsTree.dir [FsTree.file ⟨("S2_b.fastq.gz").data, [1]⟩,
        FsTree.dir [FsTree.file ⟨("S1_a.fastq.gz").data, [2]⟩],
        FsTree.file ⟨("S1_c.fastq.gz").data, [3]⟩])).Perm
      (walk (FsTree.dir [FsTree.file ⟨("S1_c.fastq.gz").data, [3]⟩,
        FsTree.file ⟨("S1_a.fastq.gz").data, [2]⟩,
        FsTree.file ⟨("S2_b.fastq.gz").data, [1]⟩])) ∧
    (identify_samples (FsTree.dir [FsTree.file ⟨("S2_b.fastq.gz").data, [1]⟩,
        FsTree.dir [FsTree.file ⟨("S1_a.fastq.gz").data, [2]⟩],
        FsTree.file ⟨("S1_c.fastq.gz").data, [3]⟩]) =
      identify_samples (FsTree.dir [FsTree.file ⟨("S1_c.fastq.gz").data, [3]⟩,
        FsTree.file ⟨("S1_a.fastq.gz").data, [2]⟩,
        FsTree.file ⟨("S2_b.fastq.gz").data, [1]⟩]) ∧
    ((("S1").data) ∈ identify_samples (FsTree.dir
        [FsTree.file ⟨("S2_b.fastq.gz").data, [1]⟩,
         FsTree.dir [FsTree.file ⟨("S1_a.fastq.gz").data, [2]⟩],
         FsTree.file ⟨("S1_c.fastq.gz").data, [3]⟩]) ↔
      ∃ f ∈ walk (FsTree.dir [FsTree.file ⟨("S2_b.fastq.gz").data, [1]⟩,
          FsTree.dir [FsTree.file ⟨("S1_a.fastq.gz").data, [2]⟩],
          FsTree.file ⟨("S1_c.fastq.gz").data, [3]⟩]),
        suffixesOf f.name = fastqGzSuffixes ∧ (("S1").data) = splitHead f.name) ∧
    List.Sorted (fun a b : Str => a ≤ b)
      (identify_samples (FsTree.dir [FsTree.file ⟨("S2_b.fastq.gz").data, [1]⟩,
        FsTree.dir [FsTree.file ⟨("S1_a.fastq.gz").data, [2]⟩],
        FsTree.file ⟨("S1_c.fastq.gz").data, [3]⟩])) ∧
    (identify_samples (FsTree.dir [FsTree.file ⟨("S2_b.fastq.gz").data, [1]⟩,
        FsTree.dir [FsTree.file ⟨("S1_a.fastq.gz").data, [2]⟩],
        FsTree.file ⟨("S1_c.fastq.gz").data, [3]⟩])).Nodup) :=
  ⟨by decide,
   C2_sample_identification_amended
     (FsTree.dir [FsTree.file ⟨("S2_b.fastq.gz").data, [1]⟩,
        FsTree.dir [FsTree.file ⟨("S1_a.fastq.gz").data, [2]⟩],
        FsTree.file ⟨("S1_c.fastq.gz").data, [3]⟩])
     (FsTree.dir [FsTree.file ⟨("S1_c.fastq.gz").data, [3]⟩,
        FsTree.file ⟨("S1_a.fastq.gz").data, [2]⟩,
        FsTree.file ⟨("S2_b.fastq.gz").data, [1]⟩])
     (("S1").data) (by decide)⟩

/-- C9 (counterexample).  When the data directory is missing and the project
already had a non-empty sample list, `identify_samples` leaves the old list
in place: the samples field is not empty afterwards. -/
theorem C9_missing_dir_counterexample :
    identifySamplesRun none (some [("X").data]) = ⟨some [("X").data], true⟩ ∧
    (identifySamplesRun none (some [("X").data])).samples ≠ some [] ∧
    (identifySamplesRun none (some [("X").data])).samples ≠ none := by
  decide

/-- C9 (amended).  When the raw-data directory does not exist, sample
identification signals the recoverable not-found condition instead of
propagating a filesystem error and leaves the samples field unchanged (so it
is empty afterwards exactly when it was empty before). -/
theorem C9_missing_dir_amended (prev : Option (List Str)) :
    identifySamplesRun none prev = ⟨prev, true⟩ := rfl

lemma mem_addToGroups_new (acc : List (Str × List SeqFile)) (key : Str)
    (f : SeqFile) : ∃ g ∈ addToGroups acc key f, g.1 = key ∧ f ∈ g.2 := by
  induction acc with
  | nil => exact ⟨(key, [f]), by simp [addToGroups]⟩
  | cons p rest ih =>
    obtain ⟨k0, fs⟩ := p
    by_cases hk : k0 = key
    · exact ⟨(k0, fs ++ [f]), by simp [addToGroups, hk]⟩
    · obtain ⟨g, hg, hgp⟩ := ih
      exact ⟨g, by simp [addToGroups, hk, hg], hgp⟩

lemma mem_addToGroups_mono {acc : List (Str × List SeqFile)} {K : Str}
    {x : SeqFile} (key : Str) (f : SeqFile)
    (h : ∃ g ∈ acc, g.1 = K ∧ x ∈ g.2) :
    ∃ g ∈ addToGroups acc key f, g.1 = K ∧ x ∈ g.2 := by
  induction acc with
  | nil => simp at h
  | cons p rest ih =>
    obtain ⟨k0, fs⟩ := p
    obtain ⟨g, hg, hgK, hgx⟩ := h
    rcases List.mem_cons.mp hg with hhead | htail
    · subst hhead
      by_cases hk : k0 = key
      · exact ⟨(k0, fs ++ [f]), by simp [addToGroups, hk], hgK,
          List.mem_append_left [f] hgx⟩
      · exact ⟨(k0, fs), by simp [addToGroups, hk], hgK, hgx⟩
    · by_cases hk : k0 = key
      · exact ⟨g, by simp [addToGroups, hk, htail], hgK, hgx⟩
      · obtain ⟨g2, hg2, hg2p⟩ := ih ⟨g, htail, hgK, hgx⟩
        exact ⟨g2, by simp [addToGroups, hk, hg2], hg2p⟩

lemma groupInto_mono {K : Str} {x : SeqFile} (fs : List SeqFile) :
    ∀ acc, (∃ g ∈ acc, g.1 = K ∧ x ∈ g.2) →
      ∃ g ∈ groupInto acc fs, g.1 = K ∧ x ∈ g.2 := by
  induction fs with
  | nil => intro acc h; simpa [groupInto] using h
  | cons f rest ih =>
    intro acc h
    exact ih _ (mem_addToGroups_mono (splitHead f.name) f h)

lemma groupInto_self {x : SeqFile} (fs : List SeqFile) (hx : x ∈ fs) :
    ∀ acc, ∃ g ∈ groupInto acc fs, g.1 = splitHead x.name ∧ x ∈ g.2 := by
  induction fs with
  | nil => simp at hx
  | cons f rest ih =>
    intro acc
    rcases List.mem_cons.mp hx with hhead | htail
    · subst hhead
      exact groupInto_mono rest _ (mem_addToGroups_new acc (splitHead x.name) x)
    · exact ih htail _

lemma takeWhile_ne_of_not_mem {c : Char} {l : Str} (h : c ∉ l) :
    l.takeWhile (fun x => x ≠ c) = l :=
  List.takeWhile_eq_self_iff.mpr (fun a ha => by
    simp only [ne_eq, decide_eq_true_eq]
    exact fun hac => h (hac ▸ ha))

/-- C10.  A raw file whose name has no underscore is identified by its full
name, extension included: `split("_")[0]` is the whole name, the
consolidation grouping files it under the full name, and when it passes the
suffix filter its full name appears among the identified samples. -/
theorem C10_no_separator_uses_full_name (files : List SeqFile) (f : SeqFile)
    (t : FsTree) (hn : '_' ∉ f.name) :
    splitHead f.name = f.name ∧
    (f ∈ files → ∃ g ∈ groupBySample files, g.1 = f.name ∧ f ∈ g.2) ∧
    (f ∈ walk t → suffixesOf f.name = fastqGzSuffixes →
      f.name ∈ identify_samples t) := by
  have hsplit : splitHead f.name = f.name := takeWhile_ne_of_not_mem hn
  refine ⟨hsplit, ?_, ?_⟩
  · intro hf
    obtain ⟨g, hg, hgk, hgx⟩ := groupInto_self files hf []
    exact ⟨g, hg, hsplit ▸ hgk, hgx⟩
  · intro hf hsuf
    exact mem_identify_samples.mpr ⟨f, hf, hsuf, hsplit.symm⟩

/-- Witness for C10 at the underscore-free name `sample.fastq.gz`. -/
theorem C10_no_separator_uses_full_name_witness :
    '_' ∉ (("sample.fastq.gz").data) ∧
    splitHead (("sample.fastq.gz").data) = (("sample.fastq.gz").data) ∧
    ((⟨("sample.fastq.gz").data, [1]⟩ : SeqFile) ∈
        [(⟨("sample.fastq.gz").data, [1]⟩ : SeqFile)] →
      ∃ g ∈ groupBySample [(⟨("sample.fastq.gz").data, [1]⟩ : SeqFile)],
        g.1 = (("sample.fastq.gz").data) ∧
          (⟨("sample.fastq.gz").data, [1]⟩ : SeqFile) ∈ g.2) ∧
    ((⟨("sample.fastq.gz").data, [1]⟩ : SeqFile) ∈
        walk (FsTree.file ⟨("sample.fastq.gz").data, [1]⟩) →
      suffixesOf (("sample.fastq.gz").data) = fastqGzSuffixes →
      (("sample.fastq.gz").data) ∈
        identify_samples (FsTree.file ⟨("sample.fastq.gz").data, [1]⟩)) :=
  ⟨by decide,
   C10_no_separator_uses_full_name
     [(⟨("sample.fastq.gz").data, [1]⟩ : SeqFile)]
     (⟨("sample.fastq.gz").data, [1]⟩ : SeqFile)
     (FsTree.file ⟨("sample.fastq.gz").data, [1]⟩) (by decide)⟩

lemma pyLinesAux_flatten (s : Str) :
    ∀ cur, (pyLinesAux cur s).flatten = cur.reverse ++ s := by
  induction s with
  | nil =>
    intro cur
    cases hc : cur.isEmpty with
    | true =>
      have : cur = [] := List.isEmpty_iff.mp hc
      simp [pyLinesAux, hc, this]
    | false => simp [pyLinesAux, hc]
  | cons c cs ih =>
    intro cur
    by_cases h : c = '\n'
    · subst h
      simp [pyLinesAux, ih []]
    · simp [pyLinesAux, h, ih (c :: cur)]

lemma pyLines_flatten (s : Str) : (pyLines s).flatten = s := by
  simpa using pyLinesAux_flatten s []

/-- C5 (counterexample).  A document whose first line merely contains the
marker as a substring, ahead of the exact marker line: regeneration with
consent does not write the header followed by the verbatim tail from the
marker line (the claim's output); it writes the canonical marker line
followed by everything after the first substring match. -/
theorem C5_tail_preserved_counterexample :
    (("## Additional Info\n").data) ∈
      pyLines (("x ## Additional Info\nA\n## Additional Info\nB\n").data) ∧
    generate_info_sheet (("H").data)
        (some (("x ## Additional Info\nA\n## Additional Info\nB\n").data)) true ≠
      some ((("H").data) ++ (("## Additional Info\nB\n").data)) ∧
    generate_info_sheet (("H").data)
        (some (("x ## Additional Info\nA\n## Additional Info\nB\n").data)) true =
      some ((("H").data) ++ (("## Additional Info\nA\n## Additional Info\nB\n").data)) := by
  decide

/-- C5 (amended).  When the first line of the existing document containing
`## Additional Info` as a substring is exactly the marker line, the tail —
that line plus everything after it — is a literal suffix of the document and
is preserved byte-for-byte: with consent the file becomes the new header
followed by that tail, and without consent the file is unchanged. -/
theorem C5_tail_preserved_amended (header cont : Str) (rest : List Str)
    (hdrop : (pyLines cont).dropWhile (fun l => !(containsSub l markerLine)) =
      (markerLine ++ ['\n']) :: rest) :
    ∃ hpre, cont = hpre ++ ((markerLine ++ ['\n']) ++ rest.flatten) ∧
      generate_info_sheet header (some cont) true =
        some (header ++ ((markerLine ++ ['\n']) ++ rest.flatten)) ∧
      generate_info_sheet header (some cont) false = some cont := by
  have hget : get_existing_info_sheet cont =
      some ((markerLine ++ ['\n']) ++ rest.flatten) := by
    simp [get_existing_info_sheet, hdrop]
  refine ⟨((pyLines cont).takeWhile (fun l => !(containsSub l markerLine))).flatten,
    ?_, ?_, ?_⟩
  · have h1 : cont =
        (((pyLines cont).takeWhile (fun l => !(containsSub l markerLine))) ++
          ((pyLines cont).dropWhile (fun l => !(containsSub l markerLine)))).flatten := by
      rw [List.takeWhile_append_dropWhile, pyLines_flatten]
    rw [hdrop] at h1
    simpa [List.flatten_append] using h1
  · simp [generate_info_sheet, hget]
  · simp [generate_info_sheet, hget]

/-- Witness for the amended C5 at a document whose marker line is exact. -/
theorem C5_tail_preserved_amended_witness :
    ((pyLines (("head\n## Additional Info\nuser notes\n").data)).dropWhile
        (fun l => !(containsSub l markerLine)) =
      (markerLine ++ ['\n']) :: [("user notes\n").data]) ∧
    (∃ hpre, ("head\n## Additional Info\nuser notes\n").data =
        hpre ++ ((markerLine ++ ['\n']) ++ ([("user notes\n").data]).flatten) ∧
      generate_info_sheet (("NEW HEADER\n").data)
          (some (("head\n## Additional Info\nuser notes\n").data)) true =
        some ((("NEW HEADER\n").data) ++
          ((markerLine ++ ['\n']) ++ ([("user notes\n").data]).flatten)) ∧
      generate_info_sheet (("NEW HEADER\n").data)
          (some (("head\n## Additional Info\nuser notes\n").data)) false =
        some (("head\n## Additional Info\nuser notes\n").data)) :=
  ⟨by decide,
   C5_tail_preserved_amended (("NEW HEADER\n").data)
     (("head\n## Additional Info\nuser notes\n").data)
     [("user notes\n").data] (by decide)⟩

/-- C6.  Saving over an existing metadata file: an identical stored record
means no write at all (the file content and timestamp are untouched); a
differing stored record is wholly replaced exactly when the confirmation is
affirmative, and otherwise nothing is written. -/
theorem C6_save_metadata_conflict_gate (old : List (Str × YamlVal))
    (m : MetaRecord) (consent : Bool) :
    (yamlLoad old = some m →
      save_metadata (some old) m consent = (some old, false)) ∧
    (yamlLoad old ≠ some m →
      save_metadata (some old) m true = (some (yamlDump m), true)) ∧
    (yamlLoad old ≠ some m →
      save_metadata (some old) m false = (some old, false)) := by
  refine ⟨fun h => ?_, fun h => ?_, fun h => ?_⟩ <;> simp [save_metadata, h]

/-- Witness for C6: a no-op save of an unchanged record, then a differing
record saved only under an affirmative confirmation. -/
theorem C6_save_metadata_conflict_gate_witness :
    yamlLoad (yamlDump ⟨("p1").data, none, none, none⟩) =
      some ⟨("p1").data, none, none, none⟩ ∧
    save_metadata (some (yamlDump ⟨("p1").data, none, none, none⟩))
        ⟨("p1").data, none, none, none⟩ false =
      (some (yamlDump ⟨("p1").data, none, none, none⟩), false) ∧
    yamlLoad (yamlDump ⟨("p1").data, none, none, none⟩) ≠
      some ⟨("p1").data, some (("o").data), none, none⟩ ∧
    save_metadata (some (yamlDump ⟨("p1").data, none, none, none⟩))
        ⟨("p1").data, some (("o").data), none, none⟩ true =
      (some (yamlDump ⟨("p1").data, some (("o").data), none, none⟩), true) ∧
    save_metadata (some (yamlDump ⟨("p1").data, none, none, none⟩))
        ⟨("p1").data, some (("o").data), none, none⟩ false =
      (some (yamlDump ⟨("p1").data, none, none, none⟩), false) :=
  ⟨by decide,
   (C6_save_metadata_conflict_gate (yamlDump ⟨("p1").data, none, none, none⟩)
     ⟨("p1").data, none, none, none⟩ false).1 (by decide),
   by decide,
   (C6_save_metadata_conflict_gate (yamlDump ⟨("p1").data, none, none, none⟩)
     ⟨("p1").data, some (("o").data), none, none⟩ true).2.1 (by decide),
   (C6_save_metadata_conflict_gate (yamlDump ⟨("p1").data, none, none, none⟩)
     ⟨("p1").data, some (("o").data), none, none⟩ false).2.2 (by decide)⟩

/-- C7.  Round trip: saving a fresh metadata record and loading it back
through `from_metadata` recovers every declared field of the record. -/
theorem C7_metadata_round_trip (m : MetaRecord) (consent : Bool) :
    from_metadata m.name true ((save_metadata none m consent).1) = some m := by
  cases m with
  | mk n o rt ss =>
    simp only [save_metadata, from_metadata, yamlDump, if_true]
    cases o <;> cases rt <;> cases ss <;>
      simp [yamlLoad, decodeOptStr, decodeOptList]
